import Mathlib

/-!
Verification development for the SachengRSS feed ingestion engine.

The data model and the operations below are shallow embeddings of the
TypeScript source:
* `src/lib/rssParser.ts` — `RSS_SUFFIXES`, `tryParseUrl`, `parseRSSFeed`,
  `convertToRSSItems`;
* `src/hooks/useRSS.ts` — the pre-filter and worker loop of `addFeedsBatch`,
  and the merge performed by `refreshFeed`.

Browser platform primitives (network fetch through the CORS proxies,
`DOMParser` document extraction, `new URL` parsing, `Math.random` id
generation, `Date.now`) are passed in as explicit oracle parameters; the
logic of the repository itself is translated directly.
-/

/-- JavaScript `a || d` on an optional string: `undefined` and the empty
string are falsy. -/
def jsOrStr (a : Option String) (d : String) : String :=
  match a with
  | some s => if s = "" then d else s
  | none => d

/-- One element of `ParsedFeed['items']` in `rssParser.ts`: every field is
optional, as produced by the per-format extraction. -/
structure ParsedItem where
  title : Option String
  link : Option String
  content : Option String
  contentSnippet : Option String
  pubDate : Option String
  author : Option String
  categories : Option (List String)
  guid : Option String
deriving Repr, DecidableEq, Inhabited

/-- The `ParsedFeed` interface of `rssParser.ts`. -/
structure ParsedFeed where
  title : String
  description : Option String
  items : List ParsedItem
deriving Repr, DecidableEq, Inhabited

/-- The persisted `RSSFeed` record of the app (`@/types`). `lastUpdated` is a
`Date.now()` timestamp, modelled as a natural number. -/
structure RSSFeed where
  id : String
  title : String
  url : String
  description : Option String
  lastUpdated : Nat
deriving Repr, DecidableEq, Inhabited

/-- The persisted `RSSItem` record of the app (`@/types`). -/
structure RSSItem where
  id : String
  feedId : String
  title : String
  link : String
  description : String
  content : String
  pubDate : Option String
  author : Option String
  categories : Option (List String)
  isRead : Bool
  isStarred : Bool
deriving Repr, DecidableEq, Inhabited

/-- The aggregate result record built by `addFeedsBatch` in `useRSS.ts`. -/
structure IngestionResult where
  success : Nat
  failed : Nat
  skipped : Nat
  errors : List String
deriving Repr, DecidableEq, Inhabited

/-- One converted item of `convertToRSSItems` (`rssParser.ts`): the body of
the `parsedItems.map((item, index) => ...)` callback, with `Date.now()`
passed in as `now`. -/
def convertOne (feedId : String) (now : Nat) (index : Nat) (item : ParsedItem) : RSSItem :=
  { id := feedId ++ "-" ++ jsOrStr item.guid (toString index) ++ "-" ++ toString now
    feedId := feedId
    title := jsOrStr item.title "无标题"
    link := jsOrStr item.link ""
    description := jsOrStr item.contentSnippet (jsOrStr (item.content.map (fun c => c.take 200)) "")
    content := jsOrStr item.content (jsOrStr item.contentSnippet "")
    pubDate := item.pubDate
    author := item.author
    categories := item.categories
    isRead := false
    isStarred := false }

/-- Index-threading recursion behind `convertToRSSItems`. -/
def convertFrom (feedId : String) (now : Nat) : Nat → List ParsedItem → List RSSItem
  | _, [] => []
  | i, item :: rest => convertOne feedId now i item :: convertFrom feedId now (i + 1) rest

/-- `convertToRSSItems` of `rssParser.ts`: maps parsed items to `RSSItem`
records with `isRead = false`, `isStarred = false`; the array index feeds the
generated id. -/
def convertToRSSItems (parsedItems : List ParsedItem) (feedId : String) (now : Nat) :
    List RSSItem :=
  convertFrom feedId now 0 parsedItems

/-- The per-new-item merge step inside `refreshFeed` (`useRSS.ts`):
`prev.find(i => i.link === newItem.link)`, and on a hit the new item keeps
its own content but takes the found entry's `isRead`/`isStarred`. -/
def mergeOne (prev : List RSSItem) (newItem : RSSItem) : RSSItem :=
  match prev.find? (fun i => i.link == newItem.link) with
  | some existing => { newItem with isRead := existing.isRead, isStarred := existing.isStarred }
  | none => newItem

/-- The `setItems` updater of `refreshFeed` (`useRSS.ts`): merged new items
in front, then all previous items of other feeds; the refreshed feed's old
entries are dropped. -/
def mergeRefresh (prev : List RSSItem) (feedId : String) (newItems : List RSSItem) :
    List RSSItem :=
  newItems.map (mergeOne prev) ++ prev.filter (fun i => i.feedId != feedId)

/-- Item-state part of `refreshFeed`: convert the parsed items, then merge
them over the previous item list. -/
def refreshItems (prev : List RSSItem) (feedId : String) (parsedItems : List ParsedItem)
    (now : Nat) : List RSSItem :=
  mergeRefresh prev feedId (convertToRSSItems parsedItems feedId now)

/-- `refreshFeed` of `useRSS.ts` over the whole state. The network plus
parse pipeline is the oracle `parse`; `none` models a rejected
`parseRSSFeed`/timeout race, in which case the catch block leaves the state
unchanged. -/
def refreshFeed (parse : String → Option ParsedFeed) (feeds : List RSSFeed)
    (items : List RSSItem) (feedId : String) (now : Nat) :
    List RSSFeed × List RSSItem :=
  match feeds.find? (fun f => f.id == feedId) with
  | none => (feeds, items)
  | some feed =>
    match parse feed.url with
    | none => (feeds, items)
    | some parsed =>
      (feeds.map (fun f => if f.id == feedId then { f with lastUpdated := now } else f),
       refreshItems items feedId parsed.items now)

/-- Length of `convertFrom` output. -/
theorem convertFrom_length (feedId : String) (now : Nat) :
    ∀ (ps : List ParsedItem) (i : Nat), (convertFrom feedId now i ps).length = ps.length := by
  intro ps
  induction ps with
  | nil => intro i; rfl
  | cons hd tl ih => intro i; simp [convertFrom, ih]

/-- Indexing into `convertFrom` output. -/
theorem convertFrom_getElem? (feedId : String) (now : Nat) :
    ∀ (ps : List ParsedItem) (i k : Nat),
      (convertFrom feedId now i ps)[k]? = ps[k]?.map (fun item => convertOne feedId now (i + k) item) := by
  intro ps
  induction ps with
  | nil => intro i k; simp [convertFrom]
  | cons hd tl ih =>
    intro i k
    cases k with
    | zero => simp [convertFrom]
    | succ k =>
      simp only [convertFrom, List.getElem?_cons_succ, ih (i + 1) k]
      have h : i + 1 + k = i + (k + 1) := by omega
      rw [h]

/-- Indexing into `convertToRSSItems`. -/
theorem convertToRSSItems_getElem? (ps : List ParsedItem) (feedId : String) (now : Nat)
    (k : Nat) :
    (convertToRSSItems ps feedId now)[k]? = ps[k]?.map (fun item => convertOne feedId now k item) := by
  have h := convertFrom_getElem? feedId now ps 0 k
  simpa [convertToRSSItems] using h

/-- Length of `convertToRSSItems`. -/
theorem convertToRSSItems_length (ps : List ParsedItem) (feedId : String) (now : Nat) :
    (convertToRSSItems ps feedId now).length = ps.length :=
  convertFrom_length feedId now ps 0

/-- Every converted item starts unread and unstarred, with the owning feed id. -/
theorem convertOne_flags (feedId : String) (now i : Nat) (item : ParsedItem) :
    (convertOne feedId now i item).isRead = false ∧
      (convertOne feedId now i item).isStarred = false ∧
      (convertOne feedId now i item).feedId = feedId := by
  simp [convertOne]

/-- C1. For every refresh merge: a new entry whose link matches an existing
entry keeps its own title/content/date/author/categories but takes the
matched entry's `isRead`/`isStarred`; a new entry with no link match is kept
as converted, with `isRead = false` and `isStarred = false`. -/
theorem refresh_merge_flag_preservation (prev : List RSSItem) (feedId : String)
    (ps : List ParsedItem) (now : Nat) (k : Nat) (hk : k < ps.length) :
    ∃ n : RSSItem,
      (convertToRSSItems ps feedId now)[k]? = some n ∧
      n.isRead = false ∧ n.isStarred = false ∧
      (∀ e : RSSItem, prev.find? (fun i => i.link == n.link) = some e →
        ∃ m : RSSItem, (refreshItems prev feedId ps now)[k]? = some m ∧
          m.title = n.title ∧ m.content = n.content ∧ m.description = n.description ∧
          m.pubDate = n.pubDate ∧ m.author = n.author ∧ m.categories = n.categories ∧
          m.isRead = e.isRead ∧ m.isStarred = e.isStarred) ∧
      (prev.find? (fun i => i.link == n.link) = none →
        (refreshItems prev feedId ps now)[k]? = some n) := by
  obtain ⟨item, hitem⟩ : ∃ item, ps[k]? = some item := by
    exact ⟨ps[k], List.getElem?_eq_getElem hk⟩
  refine ⟨convertOne feedId now k item, ?_, ?_, ?_, ?_, ?_⟩
  · rw [convertToRSSItems_getElem?, hitem]; rfl
  · simp [convertOne]
  · simp [convertOne]
  · intro e he
    have hlen : k < (convertToRSSItems ps feedId now).length := by
      rw [convertToRSSItems_length]; exact hk
    have hmap : (refreshItems prev feedId ps now)[k]? =
        ((convertToRSSItems ps feedId now).map (mergeOne prev))[k]? := by
      unfold refreshItems mergeRefresh
      rw [List.getElem?_append_left (by simpa using hlen)]
    rw [hmap, List.getElem?_map, convertToRSSItems_getElem?, hitem]
    refine ⟨{ convertOne feedId now k item with isRead := e.isRead, isStarred := e.isStarred },
      ?_, by simp, by simp, by simp, by simp, by simp, by simp, by simp, by simp⟩
    simp [mergeOne, he]
  · intro he
    have hlen : k < (convertToRSSItems ps feedId now).length := by
      rw [convertToRSSItems_length]; exact hk
    have hmap : (refreshItems prev feedId ps now)[k]? =
        ((convertToRSSItems ps feedId now).map (mergeOne prev))[k]? := by
      unfold refreshItems mergeRefresh
      rw [List.getElem?_append_left (by simpa using hlen)]
    rw [hmap, List.getElem?_map, convertToRSSItems_getElem?, hitem]
    simp [mergeOne, he]

/-- Witness for C1 at a concrete refresh: one matched entry (flags carried
from the existing entry) discharging every hypothesis of the theorem. -/
theorem refresh_merge_flag_preservation_witness :
    ∃ n : RSSItem,
      (convertToRSSItems
        [{ title := some "t2", link := some "http://a/x", content := some "c2",
           contentSnippet := none, pubDate := none, author := none,
           categories := none, guid := none }] "f" 7)[0]? = some n ∧
      n.isRead = false ∧ n.isStarred = false ∧
      (∀ e : RSSItem,
        [({ id := "f-0-1", feedId := "f", title := "t1", link := "http://a/x",
            description := "", content := "c1", pubDate := none, author := none,
            categories := none, isRead := true, isStarred := true } : RSSItem)].find?
            (fun i => i.link == n.link) = some e →
        ∃ m : RSSItem,
          (refreshItems
            [{ id := "f-0-1", feedId := "f", title := "t1", link := "http://a/x",
               description := "", content := "c1", pubDate := none, author := none,
               categories := none, isRead := true, isStarred := true }] "f"
            [{ title := some "t2", link := some "http://a/x", content := some "c2",
               contentSnippet := none, pubDate := none, author := none,
               categories := none, guid := none }] 7)[0]? = some m ∧
          m.title = n.title ∧ m.content = n.content ∧ m.description = n.description ∧
          m.pubDate = n.pubDate ∧ m.author = n.author ∧ m.categories = n.categories ∧
          m.isRead = e.isRead ∧ m.isStarred = e.isStarred) ∧
      ([({ id := "f-0-1", feedId := "f", title := "t1", link := "http://a/x",
           description := "", content := "c1", pubDate := none, author := none,
           categories := none, isRead := true, isStarred := true } : RSSItem)].find?
           (fun i => i.link == n.link) = none →
        (refreshItems
          [{ id := "f-0-1", feedId := "f", title := "t1", link := "http://a/x",
             description := "", content := "c1", pubDate := none, author := none,
             categories := none, isRead := true, isStarred := true }] "f"
          [{ title := some "t2", link := some "http://a/x", content := some "c2",
             contentSnippet := none, pubDate := none, author := none,
             categories := none, guid := none }] 7)[0]? = some n) :=
  refresh_merge_flag_preservation _ "f" _ 7 0 (by decide)

/-- The merge lookup of one new item is unchanged when every stored entry's
`feedId` is relabelled arbitrarily: the `prev.find(i => i.link === newItem.link)`
predicate reads only `link`. -/
theorem mergeOne_feedId_irrelevant (relabel : RSSItem → String) (n : RSSItem) :
    ∀ prev : List RSSItem,
      mergeOne (prev.map (fun e => { e with feedId := relabel e })) n = mergeOne prev n := by
  intro prev
  induction prev with
  | nil => rfl
  | cons hd tl ih =>
    simp only [List.map_cons, mergeOne, List.find?_cons]
    cases h : hd.link == n.link with
    | true => simp [h]
    | false =>
      simp only [h]
      simpa [mergeOne] using ih

/-- C4 (amended). The link-match lookup of a refresh merge scans the whole
stored entry list and never consults `feedId`: the merged part of a refresh
is invariant under arbitrary relabelling of the `feedId` of every stored
entry, so the first stored entry with a matching link supplies the
carried-forward flags even when it belongs to a different feed. -/
theorem merge_lookup_ignores_feedId (prev : List RSSItem) (newItems : List RSSItem)
    (relabel : RSSItem → String) :
    newItems.map (mergeOne (prev.map (fun e => { e with feedId := relabel e }))) =
      newItems.map (mergeOne prev) := by
  apply List.map_congr_left
  intro n _
  exact mergeOne_feedId_irrelevant relabel n prev

/-- Stored entry of a different feed ("g") sharing the link of the item
re-fetched for feed "f". -/
def itemOtherFeed : RSSItem :=
  { id := "g-0-5", feedId := "g", title := "told", link := "http://l", description := "",
    content := "cold", pubDate := none, author := none, categories := none,
    isRead := true, isStarred := true }

/-- Parsed items of the refresh of feed "f" in the C4 counterexample. -/
def psCross : List ParsedItem :=
  [{ title := some "tnew", link := some "http://l", content := some "cnew",
     contentSnippet := none, pubDate := none, author := none, categories := none,
     guid := none }]

/-- C4 (counterexample). Refreshing feed "f" when the only stored entry with
the matching link belongs to feed "g": the merged entry of feed "f" carries
`isRead = true`, `isStarred = true` taken from the other feed's entry,
contradicting the claim that an entry of a different feed never supplies the
carried-forward flags. -/
theorem merge_lookup_crosses_feeds_cex :
    itemOtherFeed.feedId = "g" ∧
    (refreshItems [itemOtherFeed] "f" psCross 7).map
        (fun e => (e.feedId, e.isRead, e.isStarred)) =
      [("f", true, true), ("g", true, true)] := by
  decide

/-- The fixed ordered suffix list `RSS_SUFFIXES` of `rssParser.ts`; index 0
is the raw URL. -/
def RSS_SUFFIXES : List String :=
  ["", "/feed", "/feed/", "/rss", "/rss/", "/index.xml", "/feed.xml", "/rss.xml",
   "?format=rss", "?format=atom", "/atom", "/atom.xml"]

/-- Whitespace recognized by JavaScript `String.prototype.trim`, restricted
to the common ASCII whitespace characters. -/
def isJsSpace (c : Char) : Bool :=
  c = ' ' ∨ c = '\t' ∨ c = '\n' ∨ c = '\r'

/-- JavaScript `s.trim()`: strip leading and trailing whitespace. -/
def jsTrim (s : String) : String :=
  String.mk (((s.data.dropWhile isJsSpace).reverse.dropWhile isJsSpace).reverse)

/-- `.replace(/\/$/, '')` in `parseRSSFeed`: drop one trailing slash when
present (the regex replaces a single occurrence at the end). -/
def stripTrailingSlash (s : String) : String :=
  match s.data.reverse with
  | [] => s
  | c :: rest => if c = '/' then String.mk rest.reverse else s

/-- `tryParseUrl` of `rssParser.ts`. `fetchProxy` is the `fetchWithProxy`
pipeline (its `error` carries the relay diagnostic message); `docOf` is the
`DOMParser` document extraction, where `none` stands for a `parsererror`
document or an unrecognized format. Every thrown error is caught and turned
into `none`, so the fetch diagnostic never escapes this function. -/
def tryParseUrl (fetchProxy : String → Except String String)
    (docOf : String → Option ParsedFeed) (url : String) : Option ParsedFeed :=
  match fetchProxy url with
  | .error _ => none
  | .ok text => docOf text

/-- One suffix attempt of `parseRSSFeed`: succeed only with a parseable
document holding at least one entry. -/
def suffixAttempt (attempt : String → Option ParsedFeed) (baseUrl suffix : String) :
    Option ParsedFeed :=
  match attempt (baseUrl ++ suffix) with
  | some r => if 0 < r.items.length then some r else none
  | none => none

/-- The constant error message thrown by `parseRSSFeed` when every candidate
fails. -/
def resolverFailMsg : String := "无法解析该订阅源，请检查 URL 是否正确"

/-- The suffix stage of `parseRSSFeed`: all suffix attempts are issued, the
results are collected in suffix-list order (`Promise.all`), and
`results.find(r => r !== null)` picks the first success by list position. -/
def parseSuffixes (attempt : String → Option ParsedFeed) (baseUrl : String) :
    Except String ParsedFeed :=
  match ((RSS_SUFFIXES.drop 1).map (fun suffix => suffixAttempt attempt baseUrl suffix)).findSome? id with
  | some r => .ok r
  | none => .error resolverFailMsg

/-- `parseRSSFeed` of `rssParser.ts`: try the normalized URL directly, then
the suffix stage; `attempt` is `tryParseUrl` with its platform oracles
applied. -/
def parseRSSFeed (attempt : String → Option ParsedFeed) (url : String) :
    Except String ParsedFeed :=
  match attempt (stripTrailingSlash (jsTrim url)) with
  | some direct =>
    if 0 < direct.items.length then .ok direct
    else parseSuffixes attempt (stripTrailingSlash (jsTrim url))
  | none => parseSuffixes attempt (stripTrailingSlash (jsTrim url))

/-- When the direct attempt yields no non-empty feed, `parseRSSFeed` reduces
to its suffix stage. -/
theorem parseRSSFeed_eq_parseSuffixes (attempt : String → Option ParsedFeed) (url : String)
    (hdirect : ∀ pf, attempt (stripTrailingSlash (jsTrim url)) = some pf → pf.items.length = 0) :
    parseRSSFeed attempt url = parseSuffixes attempt (stripTrailingSlash (jsTrim url)) := by
  unfold parseRSSFeed
  cases h : attempt (stripTrailingSlash (jsTrim url)) with
  | none => rfl
  | some direct =>
    have hz := hdirect direct h
    simp [hz]

/-- `findSome? id` over a mapped list returns the image of the first element
whose image is a success. -/
theorem findSome?_map_eq_of_first {α β : Type} (g : α → Option β) :
    ∀ (l : List α) (k : Nat) (r : β),
      (l[k]?.map g = some (some r)) →
      (∀ j, j < k → l[j]?.map g = some none) →
      (l.map g).findSome? id = some r := by
  intro l
  induction l with
  | nil => intro k r hk; simp at hk
  | cons hd tl ih =>
    intro k r hk hnone
    cases k with
    | zero =>
      simp only [List.getElem?_cons_zero, Option.map_some] at hk
      have hg : g hd = some r := by exact Option.some.inj hk
      simp [List.findSome?_cons, hg]
    | succ k =>
      have hhd : g hd = none := by
        have h0 := hnone 0 (Nat.succ_pos k)
        simpa using h0
      simp only [List.map_cons, List.findSome?_cons, hhd, id]
      exact ih k r (by simpa using hk)
        (fun j hj => by simpa using hnone (j + 1) (by omega))

/-- `findSome? id` over a mapped list fails when every image fails. -/
theorem findSome?_map_eq_none {α β : Type} (g : α → Option β) :
    ∀ l : List α, (∀ x ∈ l, g x = none) → (l.map g).findSome? id = none := by
  intro l
  induction l with
  | nil => intro _; rfl
  | cons hd tl ih =>
    intro h
    have hhd : g hd = none := h hd (List.mem_cons_self hd tl)
    simp only [List.map_cons, List.findSome?_cons, hhd, id]
    exact ih (fun x hx => h x (List.mem_cons_of_mem hd hx))

/-- C3. When the direct attempt fails, the resolver returns the feed of the
suffix earliest in the fixed list among those yielding a parseable document
with at least one entry: results are collected positionally (`Promise.all`),
so selection is by list position, independent of completion order, and the
fixed list is exactly the one the claim names. -/
theorem resolver_selects_first_suffix_in_list_order
    (attempt : String → Option ParsedFeed) (url : String) (k : Nat) (r : ParsedFeed)
    (hdirect : ∀ pf, attempt (stripTrailingSlash (jsTrim url)) = some pf → pf.items.length = 0)
    (hwin : ((RSS_SUFFIXES.drop 1)[k]?).map
        (fun s => suffixAttempt attempt (stripTrailingSlash (jsTrim url)) s) = some (some r))
    (hbefore : ∀ j, j < k → ((RSS_SUFFIXES.drop 1)[j]?).map
        (fun s => suffixAttempt attempt (stripTrailingSlash (jsTrim url)) s) = some none) :
    parseRSSFeed attempt url = .ok r ∧ 0 < r.items.length ∧
      RSS_SUFFIXES.drop 1 =
        ["/feed", "/feed/", "/rss", "/rss/", "/index.xml", "/feed.xml", "/rss.xml",
         "?format=rss", "?format=atom", "/atom", "/atom.xml"] := by
  have hfind : ((RSS_SUFFIXES.drop 1).map
      (fun s => suffixAttempt attempt (stripTrailingSlash (jsTrim url)) s)).findSome? id
      = some r :=
    findSome?_map_eq_of_first _ _ k r hwin hbefore
  have hsuff : parseSuffixes attempt (stripTrailingSlash (jsTrim url)) = .ok r := by
    unfold parseSuffixes
    rw [hfind]
  have hred := parseRSSFeed_eq_parseSuffixes attempt url hdirect
  have hpos : 0 < r.items.length := by
    obtain ⟨s, hs⟩ : ∃ s, (RSS_SUFFIXES.drop 1)[k]? = some s := by
      cases h : (RSS_SUFFIXES.drop 1)[k]? with
      | none => rw [h] at hwin; simp at hwin
      | some s => exact ⟨s, rfl⟩
    rw [hs] at hwin
    simp only [Option.map_some', Option.some.injEq] at hwin
    unfold suffixAttempt at hwin
    cases h : attempt (stripTrailingSlash (jsTrim url) ++ s) with
    | none => rw [h] at hwin; simp at hwin
    | some q =>
      rw [h] at hwin
      have hwin2 : (if 0 < q.items.length then some q else none) = some r := hwin
      by_cases hq : 0 < q.items.length
      · rw [if_pos hq] at hwin2
        cases hwin2
        exact hq
      · rw [if_neg hq] at hwin2
        cases hwin2
  refine ⟨?_, hpos, by decide⟩
  rw [hred]
  exact hsuff

/-- Feed returned by the winning suffix attempt in the C3 witness. -/
def pfW : ParsedFeed :=
  { title := "W", description := none,
    items := [{ title := some "a", link := some "http://site/p", content := none,
                contentSnippet := none, pubDate := none, author := none,
                categories := none, guid := none }] }

/-- Concrete attempt oracle for the C3 witness: only the `/rss` suffix of
`http://site` yields a feed. -/
def attemptW : String → Option ParsedFeed := fun s =>
  if s = "http://site/rss" then some pfW else none

/-- Witness for C3: direct attempt fails, `/feed` and `/feed/` fail, `/rss`
(position 2) wins, and the resolver returns its feed. -/
theorem resolver_selects_first_suffix_witness :
    parseRSSFeed attemptW "http://site/" = .ok pfW ∧ 0 < pfW.items.length ∧
    RSS_SUFFIXES.drop 1 =
      ["/feed", "/feed/", "/rss", "/rss/", "/index.xml", "/feed.xml", "/rss.xml",
       "?format=rss", "?format=atom", "/atom", "/atom.xml"] :=
  resolver_selects_first_suffix_in_list_order attemptW "http://site/" 2 pfW
    (by
      intro pf h
      rw [show attemptW (stripTrailingSlash (jsTrim "http://site/")) = none from by decide] at h
      cases h)
    (by decide)
    (by decide)

/-- C6 (amended). When the direct attempt and every suffix attempt fail to
yield a parseable non-empty feed, the resolver fails with the fixed message
`resolverFailMsg`; the underlying fetch or parse diagnostics are swallowed
inside `tryParseUrl` and do not reach the thrown error. -/
theorem resolver_exhaustion_fixed_message
    (fetchProxy : String → Except String String) (docOf : String → Option ParsedFeed)
    (url : String)
    (hall : ∀ u pf, tryParseUrl fetchProxy docOf u = some pf → pf.items.length = 0) :
    parseRSSFeed (tryParseUrl fetchProxy docOf) url = .error resolverFailMsg := by
  have hsuffix : ∀ s ∈ RSS_SUFFIXES.drop 1,
      suffixAttempt (tryParseUrl fetchProxy docOf) (stripTrailingSlash (jsTrim url)) s = none := by
    intro s _
    unfold suffixAttempt
    cases h : tryParseUrl fetchProxy docOf (stripTrailingSlash (jsTrim url) ++ s) with
    | none => rfl
    | some r =>
      have hz : r.items.length = 0 := hall _ r h
      show (if 0 < r.items.length then some r else none) = none
      rw [hz, if_neg (lt_irrefl 0)]
  have hnone : ((RSS_SUFFIXES.drop 1).map
      (fun s => suffixAttempt (tryParseUrl fetchProxy docOf) (stripTrailingSlash (jsTrim url)) s)).findSome? id
      = none :=
    findSome?_map_eq_none _ _ hsuffix
  have hsuff : parseSuffixes (tryParseUrl fetchProxy docOf) (stripTrailingSlash (jsTrim url))
      = .error resolverFailMsg := by
    unfold parseSuffixes
    rw [hnone]
  rw [parseRSSFeed_eq_parseSuffixes (tryParseUrl fetchProxy docOf) url (fun pf h => hall _ pf h)]
  exact hsuff

/-- Witness for C6 (amended): with every relay fetch failing, the resolver
returns exactly the fixed message. -/
theorem resolver_exhaustion_fixed_message_witness :
    parseRSSFeed (tryParseUrl (fun _ => .error "ECONNREFUSED") (fun _ => none))
        "http://example.com" = .error resolverFailMsg :=
  resolver_exhaustion_fixed_message (fun _ => .error "ECONNREFUSED") (fun _ => none)
    "http://example.com"
    (by intro u pf h; simp [tryParseUrl] at h)

/-- C6 (counterexample). Two runs whose underlying network errors differ
("连接被拒绝" versus "DNS 查询失败") produce the identical fixed error: the
thrown message is `resolverFailMsg` verbatim and carries no trace of the
last underlying network or parse error. -/
theorem resolver_error_drops_diagnostic_cex :
    parseRSSFeed (tryParseUrl (fun _ => .error "连接被拒绝") (fun _ => none))
        "http://example.com" = .error resolverFailMsg ∧
    parseRSSFeed (tryParseUrl (fun _ => .error "DNS 查询失败") (fun _ => none))
        "http://example.com" = .error resolverFailMsg ∧
    resolverFailMsg = "无法解析该订阅源，请检查 URL 是否正确" :=
  ⟨rfl, rfl, rfl⟩

/-- Classification of one input URL by the pre-filter loop of
`addFeedsBatch` (`useRSS.ts`): URL syntax first (`new URL(url.trim())`),
then the scheme allow-list, then the exact-match duplicate check against
the URLs of the feeds present when the batch started. `parseProto` is the
platform URL parser, returning `urlObj.protocol` or `none` for a throw. -/
inductive UrlCheck where
  | invalidFormat
  | badScheme
  | dup
  | candidate
deriving Repr, DecidableEq

/-- The three branch tests of the `addFeedsBatch` pre-filter, in source
order. -/
def checkUrl (parseProto : String → Option String) (existing : List String)
    (u : String) : UrlCheck :=
  match parseProto (jsTrim u) with
  | none => .invalidFormat
  | some proto =>
    if proto = "http:" ∨ proto = "https:" then
      if jsTrim u ∈ existing then .dup else .candidate
    else .badScheme

/-- Error string pushed for a URL that fails syntactic parsing. -/
def invalidFormatMsg (u : String) : String := u ++ ": URL 格式无效"

/-- Error string pushed for a URL whose scheme is not http or https. -/
def badSchemeMsg (u : String) : String := u ++ ": 只支持 HTTP 和 HTTPS 协议"

/-- Error string pushed for a feed that parses but has no entries. -/
def noEntriesMsg (u : String) : String := u ++ ": 该订阅源没有文章"

/-- Contribution of one input URL to the pre-filter accumulator of
`addFeedsBatch`. -/
def prefilterStep (p : String → Option String) (ex : List String) (u : String)
    (acc : IngestionResult × List String) : IngestionResult × List String :=
  match checkUrl p ex u with
  | .invalidFormat =>
    ({ acc.1 with failed := acc.1.failed + 1, errors := invalidFormatMsg u :: acc.1.errors },
     acc.2)
  | .badScheme =>
    ({ acc.1 with failed := acc.1.failed + 1, errors := badSchemeMsg u :: acc.1.errors },
     acc.2)
  | .dup => ({ acc.1 with skipped := acc.1.skipped + 1 }, acc.2)
  | .candidate => (acc.1, jsTrim u :: acc.2)

/-- The synchronous pre-filter loop of `addFeedsBatch`: walks the input
URLs in order, accumulating failed/skipped counts, error strings, and the
trimmed candidate list (`validUrls`). The duplicate check always uses
`existing`, the feed URLs captured before the loop. -/
def prefilter (p : String → Option String) (ex : List String) :
    List String → IngestionResult × List String
  | [] => ({ success := 0, failed := 0, skipped := 0, errors := [] }, [])
  | u :: rest => prefilterStep p ex u (prefilter p ex rest)

/-- Claim-side view of one URL's pre-filter error contribution. -/
def urlError (p : String → Option String) (existing : List String) (u : String) :
    Option String :=
  match checkUrl p existing u with
  | .invalidFormat => some (invalidFormatMsg u)
  | .badScheme => some (badSchemeMsg u)
  | .dup => none
  | .candidate => none

/-- Claim-side view of one URL's candidate contribution. -/
def urlCandidate (p : String → Option String) (existing : List String) (u : String) :
    Option String :=
  match checkUrl p existing u with
  | .candidate => some (jsTrim u)
  | .invalidFormat => none
  | .badScheme => none
  | .dup => none

/-- A URL is bad exactly when its text fails URL parsing or its scheme is
neither http nor https. -/
def isBadUrl (p : String → Option String) (u : String) : Bool :=
  match p (jsTrim u) with
  | none => true
  | some proto => if proto = "http:" ∨ proto = "https:" then false else true

/-- A URL is a duplicate when it parses with an allowed scheme and its
trimmed form is among the existing feed URLs. -/
def isDupUrl (p : String → Option String) (existing : List String) (u : String) : Bool :=
  match p (jsTrim u) with
  | none => false
  | some proto =>
    if proto = "http:" ∨ proto = "https:" then
      if jsTrim u ∈ existing then true else false
    else false

/-- The descriptive error message of a bad URL. -/
def badUrlMsg (p : String → Option String) (u : String) : String :=
  match p (jsTrim u) with
  | none => invalidFormatMsg u
  | some _ => badSchemeMsg u

/-- `isBadUrl` in terms of the pre-filter classification. -/
theorem isBadUrl_eq_check (p : String → Option String) (ex : List String) (u : String) :
    isBadUrl p u =
      ((checkUrl p ex u == UrlCheck.invalidFormat) || (checkUrl p ex u == UrlCheck.badScheme)) := by
  unfold isBadUrl checkUrl
  cases p (jsTrim u) with
  | none => rfl
  | some proto =>
    by_cases h : proto = "http:" ∨ proto = "https:"
    · by_cases hd : jsTrim u ∈ ex <;> simp [h, hd]
    · simp [h]

/-- `isDupUrl` in terms of the pre-filter classification. -/
theorem isDupUrl_eq_check (p : String → Option String) (ex : List String) (u : String) :
    isDupUrl p ex u = (checkUrl p ex u == UrlCheck.dup) := by
  unfold isDupUrl checkUrl
  cases p (jsTrim u) with
  | none => rfl
  | some proto =>
    by_cases h : proto = "http:" ∨ proto = "https:"
    · by_cases hd : jsTrim u ∈ ex <;> simp [h, hd]
    · simp [h]

/-- The candidate list of the pre-filter is the trimmed image of the URLs
classified `candidate`, in input order. -/
theorem prefilter_candidates (p : String → Option String) (ex : List String) :
    ∀ urls : List String, (prefilter p ex urls).2 = urls.filterMap (urlCandidate p ex) := by
  intro urls
  induction urls with
  | nil => rfl
  | cons u rest ih =>
    rw [List.filterMap_cons]
    cases h : checkUrl p ex u with
    | candidate =>
      have hval : urlCandidate p ex u = some (jsTrim u) := by unfold urlCandidate; rw [h]
      rw [hval]
      simp only [prefilter, prefilterStep, h]
      simp [ih]
    | invalidFormat =>
      have hval : urlCandidate p ex u = none := by unfold urlCandidate; rw [h]
      rw [hval]
      simp only [prefilter, prefilterStep, h]
      simp [ih]
    | badScheme =>
      have hval : urlCandidate p ex u = none := by unfold urlCandidate; rw [h]
      rw [hval]
      simp only [prefilter, prefilterStep, h]
      simp [ih]
    | dup =>
      have hval : urlCandidate p ex u = none := by unfold urlCandidate; rw [h]
      rw [hval]
      simp only [prefilter, prefilterStep, h]
      simp [ih]

/-- The error list of the pre-filter is the per-URL error image, in input
order. -/
theorem prefilter_errors (p : String → Option String) (ex : List String) :
    ∀ urls : List String, (prefilter p ex urls).1.errors = urls.filterMap (urlError p ex) := by
  intro urls
  induction urls with
  | nil => rfl
  | cons u rest ih =>
    rw [List.filterMap_cons]
    cases h : checkUrl p ex u with
    | candidate =>
      have hval : urlError p ex u = none := by unfold urlError; rw [h]
      rw [hval]
      simp only [prefilter, prefilterStep, h]
      simp [ih]
    | invalidFormat =>
      have hval : urlError p ex u = some (invalidFormatMsg u) := by unfold urlError; rw [h]
      rw [hval]
      simp only [prefilter, prefilterStep, h]
      simp [ih]
    | badScheme =>
      have hval : urlError p ex u = some (badSchemeMsg u) := by unfold urlError; rw [h]
      rw [hval]
      simp only [prefilter, prefilterStep, h]
      simp [ih]
    | dup =>
      have hval : urlError p ex u = none := by unfold urlError; rw [h]
      rw [hval]
      simp only [prefilter, prefilterStep, h]
      simp [ih]

/-- The failed count of the pre-filter counts exactly the bad URLs. -/
theorem prefilter_failed (p : String → Option String) (ex : List String) :
    ∀ urls : List String,
      (prefilter p ex urls).1.failed = urls.countP (fun u => isBadUrl p u) := by
  intro urls
  induction urls with
  | nil => rfl
  | cons u rest ih =>
    rw [List.countP_cons]
    simp only [prefilter, prefilterStep]
    cases h : checkUrl p ex u <;>
      simp [isBadUrl_eq_check p ex, h, ih]

/-- The skipped count of the pre-filter counts exactly the duplicate URLs. -/
theorem prefilter_skipped (p : String → Option String) (ex : List String) :
    ∀ urls : List String,
      (prefilter p ex urls).1.skipped = urls.countP (fun u => isDupUrl p ex u) := by
  intro urls
  induction urls with
  | nil => rfl
  | cons u rest ih =>
    rw [List.countP_cons]
    simp only [prefilter, prefilterStep]
    cases h : checkUrl p ex u <;>
      simp [isDupUrl_eq_check p ex, h, ih]

/-- The pre-filter never produces successes. -/
theorem prefilter_success (p : String → Option String) (ex : List String) :
    ∀ urls : List String, (prefilter p ex urls).1.success = 0 := by
  intro urls
  induction urls with
  | nil => rfl
  | cons u rest ih =>
    simp only [prefilter, prefilterStep]
    cases h : checkUrl p ex u <;> simp [h, ih]

/-- A bad URL contributes no candidate. -/
theorem urlCandidate_of_bad (p : String → Option String) (ex : List String) (u : String)
    (hbad : isBadUrl p u = true) : urlCandidate p ex u = none := by
  have h := isBadUrl_eq_check p ex u
  rw [hbad] at h
  unfold urlCandidate
  cases hc : checkUrl p ex u <;> simp [hc] at h ⊢

/-- The `invalidFormat` classification means the URL text failed parsing. -/
theorem checkUrl_invalidFormat_iff (p : String → Option String) (ex : List String)
    (u : String) : checkUrl p ex u = UrlCheck.invalidFormat ↔ p (jsTrim u) = none := by
  unfold checkUrl
  cases hp : p (jsTrim u) with
  | none => simp
  | some proto =>
    by_cases hs : proto = "http:" ∨ proto = "https:"
    · by_cases hd : jsTrim u ∈ ex <;> simp [hs, hd]
    · simp [hs]

/-- The `badScheme` classification only arises for a URL that parsed. -/
theorem checkUrl_badScheme_proto (p : String → Option String) (ex : List String)
    (u : String) : checkUrl p ex u = UrlCheck.badScheme →
      ∃ proto, p (jsTrim u) = some proto := by
  unfold checkUrl
  cases hp : p (jsTrim u) with
  | none => intro hc; cases hc
  | some proto => intro _; exact ⟨proto, rfl⟩

/-- A bad URL contributes its descriptive error message. -/
theorem urlError_of_bad (p : String → Option String) (ex : List String) (u : String)
    (hbad : isBadUrl p u = true) : urlError p ex u = some (badUrlMsg p u) := by
  have h := isBadUrl_eq_check p ex u
  rw [hbad] at h
  unfold urlError badUrlMsg
  cases hc : checkUrl p ex u with
  | invalidFormat =>
    have hp : p (jsTrim u) = none := (checkUrl_invalidFormat_iff p ex u).mp hc
    rw [hp]
  | badScheme =>
    obtain ⟨proto, hp⟩ := checkUrl_badScheme_proto p ex u hc
    rw [hp]
  | dup => rw [hc] at h; simp at h
  | candidate => rw [hc] at h; simp at h

/-- C7. For every URL whose text fails URL parsing or whose scheme is
neither http nor https: the candidate list (the only URLs ever driven to
network work) is the per-URL candidate image and a bad URL's image is
`none`, the batch counts exactly the bad URLs as failed, and the
descriptive error string of every bad URL is in the result's error list. -/
theorem batch_rejects_invalid_urls (p : String → Option String) (ex : List String)
    (urls : List String) :
    (prefilter p ex urls).2 = urls.filterMap (urlCandidate p ex) ∧
    (∀ u, isBadUrl p u = true → urlCandidate p ex u = none) ∧
    (prefilter p ex urls).1.failed = urls.countP (fun u => isBadUrl p u) ∧
    (∀ u, u ∈ urls → isBadUrl p u = true →
      badUrlMsg p u ∈ (prefilter p ex urls).1.errors) := by
  refine ⟨prefilter_candidates p ex urls, fun u => urlCandidate_of_bad p ex u,
    prefilter_failed p ex urls, ?_⟩
  intro u hu hbad
  rw [prefilter_errors]
  exact List.mem_filterMap.mpr ⟨u, hu, urlError_of_bad p ex u hbad⟩

/-- URL-parse oracle of the C7 witness: only "ftp://x" parses, with scheme
"ftp:". -/
def pFtp : String → Option String := fun s =>
  if s = "ftp://x" then some "ftp:" else none

/-- Witness for C7 at a concrete batch: a wrong-scheme URL and an
unparseable URL both fail with their messages and produce no candidate. -/
theorem batch_rejects_invalid_urls_witness :
    (prefilter pFtp [] ["ftp://x", "nonsense"]).1.failed = 2 ∧
    badUrlMsg pFtp "ftp://x" ∈ (prefilter pFtp [] ["ftp://x", "nonsense"]).1.errors ∧
    badUrlMsg pFtp "nonsense" ∈ (prefilter pFtp [] ["ftp://x", "nonsense"]).1.errors ∧
    (prefilter pFtp [] ["ftp://x", "nonsense"]).2 = [] := by
  have h := batch_rejects_invalid_urls pFtp [] ["ftp://x", "nonsense"]
  refine ⟨?_, ?_, ?_, ?_⟩
  · rw [h.2.2.1]; decide
  · exact h.2.2.2 "ftp://x" (by decide) (by decide)
  · exact h.2.2.2 "nonsense" (by decide) (by decide)
  · rw [h.1]; decide

/-- A candidate-classified URL is not among the existing feed URLs. -/
theorem checkUrl_candidate_not_mem (p : String → Option String) (ex : List String)
    (u : String) (h : checkUrl p ex u = UrlCheck.candidate) : jsTrim u ∉ ex := by
  unfold checkUrl at h
  revert h
  cases hp : p (jsTrim u) with
  | none => intro h; cases h
  | some proto =>
    by_cases hs : proto = "http:" ∨ proto = "https:"
    · by_cases hd : jsTrim u ∈ ex <;> simp [hs, hd]
    · simp [hs]

/-- A duplicate URL's trimmed form is among the existing feed URLs. -/
theorem isDupUrl_mem (p : String → Option String) (ex : List String) (u : String)
    (h : isDupUrl p ex u = true) : jsTrim u ∈ ex := by
  unfold isDupUrl at h
  revert h
  cases hp : p (jsTrim u) with
  | none => intro h; cases h
  | some proto =>
    by_cases hs : proto = "http:" ∨ proto = "https:"
    · by_cases hd : jsTrim u ∈ ex <;> simp [hs, hd]
    · simp [hs]

/-- A duplicate URL is classified `dup`. -/
theorem checkUrl_of_isDup (p : String → Option String) (ex : List String) (u : String)
    (h : isDupUrl p ex u = true) : checkUrl p ex u = UrlCheck.dup := by
  have he := isDupUrl_eq_check p ex u
  rw [h] at he
  cases hc : checkUrl p ex u <;> rw [hc] at he <;> simp at he

/-- C8 (amended). For every URL that parses with an http/https scheme and
whose TRIMMED text equals the stored source URL of an existing feed: the
batch counts exactly those URLs as skipped, such a URL contributes no
candidate and no error string, and its trimmed form never reaches the
candidate list at all (so no network call is made for it). -/
theorem batch_skips_trimmed_duplicates (p : String → Option String) (ex : List String)
    (urls : List String) :
    (prefilter p ex urls).1.skipped = urls.countP (fun u => isDupUrl p ex u) ∧
    (∀ u, isDupUrl p ex u = true → urlCandidate p ex u = none ∧ urlError p ex u = none) ∧
    (∀ u, isDupUrl p ex u = true → jsTrim u ∉ (prefilter p ex urls).2) ∧
    (prefilter p ex urls).1.errors = urls.filterMap (urlError p ex) := by
  refine ⟨prefilter_skipped p ex urls, ?_, ?_, prefilter_errors p ex urls⟩
  · intro u hdup
    have hc := checkUrl_of_isDup p ex u hdup
    constructor
    · unfold urlCandidate; rw [hc]
    · unfold urlError; rw [hc]
  · intro u hdup hmem
    rw [prefilter_candidates] at hmem
    obtain ⟨v, _, hv⟩ := List.mem_filterMap.mp hmem
    cases hcv : checkUrl p ex v with
    | candidate =>
      have hv2 : some (jsTrim v) = some (jsTrim u) := by
        rw [← hv]; unfold urlCandidate; rw [hcv]
      have hne : jsTrim v ∉ ex := checkUrl_candidate_not_mem p ex v hcv
      have hme : jsTrim u ∈ ex := isDupUrl_mem p ex u hdup
      rw [← Option.some.inj hv2] at hme
      exact hne hme
    | invalidFormat =>
      have : (none : Option String) = some (jsTrim u) := by
        rw [← hv]; unfold urlCandidate; rw [hcv]
      cases this
    | badScheme =>
      have : (none : Option String) = some (jsTrim u) := by
        rw [← hv]; unfold urlCandidate; rw [hcv]
      cases this
    | dup =>
      have : (none : Option String) = some (jsTrim u) := by
        rw [← hv]; unfold urlCandidate; rw [hcv]
      cases this

/-- URL-parse oracle of the C8 theorems: anything whose trimmed text is
"http://a" parses with scheme "http:". -/
def pHttpA : String → Option String := fun s =>
  if s = "http://a" then some "http:" else none

/-- An existing feed whose stored source URL carries surrounding spaces —
a reachable state, since the single-add path stores its `url` argument
untrimmed. -/
def feedA : RSSFeed :=
  { id := "A", title := "A", url := " http://a ", description := none, lastUpdated := 0 }

/-- C8 (counterexample). The batch input " http://a " exactly equals the
stored source URL of the existing feed `feedA`, yet the pre-filter skips
nothing and forwards the trimmed URL as a candidate for network work: the
duplicate check compares the TRIMMED input against the raw stored URL, so
an exact raw match with an untrimmed stored URL is not skipped. -/
theorem batch_skip_misses_exact_match_cex :
    feedA.url = " http://a " ∧
    (prefilter pHttpA ([feedA].map (fun f => f.url)) [" http://a "]).1.skipped = 0 ∧
    (prefilter pHttpA ([feedA].map (fun f => f.url)) [" http://a "]).1.failed = 0 ∧
    (prefilter pHttpA ([feedA].map (fun f => f.url)) [" http://a "]).2 = ["http://a"] := by
  decide

/-- Witness for C8 (amended) at a concrete batch: two URLs whose trimmed
forms equal the stored URL are both skipped, add no error, and never become
candidates. -/
theorem batch_skips_trimmed_duplicates_witness :
    (prefilter pHttpA ["http://a"] ["http://a", "http://a "]).1.skipped = 2 ∧
    (urlCandidate pHttpA ["http://a"] "http://a" = none ∧
      urlError pHttpA ["http://a"] "http://a" = none) ∧
    jsTrim "http://a " ∉ (prefilter pHttpA ["http://a"] ["http://a", "http://a "]).2 := by
  have h := batch_skips_trimmed_duplicates pHttpA ["http://a"] ["http://a", "http://a "]
  refine ⟨?_, h.2.1 "http://a" (by decide), h.2.2.1 "http://a " (by decide)⟩
  rw [h.1]; decide

/-- Outcome of the race inside one worker iteration of `addFeedsBatch`:
`ok` — `parseRSSFeed(currentUrl)` resolved; `err` — the race rejected with
a message other than cancellation (per-item 30 s timeout "请求超时" or the
resolver's failure message); `aborted` — the cancellation signal won the
race (or was observed right after it). -/
inductive ItemOutcome where
  | ok (pf : ParsedFeed)
  | err (msg : String)
  | aborted
deriving Repr, DecidableEq, Inhabited

/-- Environment of one batch run: per-claimed-index race outcomes, the
cancellation flag observed at each claim boundary, the `generateId` supply
and the `Date.now()` clock. -/
structure BatchConfig where
  outcomes : Nat → ItemOutcome
  cancelAt : Nat → Bool
  genId : Nat → String
  now : Nat

/-- Observable events of a batch run: an item finishing (success or
failure), and one `onProgress(completed, total)` invocation. -/
inductive BatchEvent where
  | itemDone (url : String)
  | progress (current total : Nat)
deriving Repr, DecidableEq

/-- Batch execution state: the shared feed/item collections, the mutable
`results` record fields, the shared `completed` counter and the event
trace. -/
structure BatchState where
  feeds : List RSSFeed
  items : List RSSItem
  success : Nat
  failed : Nat
  skipped : Nat
  errors : List String
  completed : Nat
  events : List BatchEvent
deriving Repr, DecidableEq, Inhabited

/-- The `finally` block of a worker iteration that fully processed its
item: `completed++`, then `onProgress(completed, total)` (the signal is not
aborted on this path). -/
def finishItem (st : BatchState) (u : String) (total : Nat) : BatchState :=
  { st with
    completed := st.completed + 1,
    events := st.events ++ [BatchEvent.itemDone u, BatchEvent.progress (st.completed + 1) total] }

/-- The `RSSFeed` record committed for a successful candidate. -/
def commitFeed (cfg : BatchConfig) (idx : Nat) (u : String) (pf : ParsedFeed) : RSSFeed :=
  { id := cfg.genId idx, title := pf.title, url := u, description := pf.description,
    lastUpdated := cfg.now }

/-- The worker loop of `addFeedsBatch` (claim order; `idx` is the shared
claim index). Cancellation observed at the claim boundary stops the loop;
an `aborted` race increments `completed` in the `finally` but fires no
callback (the guard `!controller.signal.aborted`) and breaks; `err` and
`ok` outcomes update the results, commit on non-empty success, and run the
`finally` block. -/
def runWorker (cfg : BatchConfig) (total : Nat) :
    List String → Nat → BatchState → BatchState
  | [], _, st => st
  | u :: rest, idx, st =>
    if cfg.cancelAt idx then st
    else
      match cfg.outcomes idx with
      | .aborted => { st with completed := st.completed + 1 }
      | .err m =>
        runWorker cfg total rest (idx + 1)
          (finishItem
            { st with failed := st.failed + 1, errors := st.errors ++ [u ++ ": " ++ m] }
            u total)
      | .ok pf =>
        if pf.items.length = 0 then
          runWorker cfg total rest (idx + 1)
            (finishItem
              { st with failed := st.failed + 1, errors := st.errors ++ [noEntriesMsg u] }
              u total)
        else
          runWorker cfg total rest (idx + 1)
            (finishItem
              { st with
                feeds := commitFeed cfg idx u pf :: st.feeds,
                items := convertToRSSItems pf.items (cfg.genId idx) cfg.now ++ st.items,
                success := st.success + 1 }
              u total)

/-- The state a batch starts from: the pre-filter result fields, zero
completions, no events. -/
def initBatchState (feeds : List RSSFeed) (items : List RSSItem)
    (pre : IngestionResult) : BatchState :=
  { feeds := feeds, items := items, success := pre.success, failed := pre.failed,
    skipped := pre.skipped, errors := pre.errors, completed := 0, events := [] }

/-- The `IngestionResult` value returned by `addFeedsBatch` from a final
batch state. -/
def resultOf (st : BatchState) : IngestionResult :=
  { success := st.success, failed := st.failed, skipped := st.skipped, errors := st.errors }

/-- `addFeedsBatch` of `useRSS.ts`: pre-filter, early return on an empty
candidate list, otherwise the worker loop over the candidates with
`total = newUrls.length`; the function returns `results` unconditionally,
also after cancellation. -/
def addFeedsBatch (cfg : BatchConfig) (p : String → Option String)
    (feeds : List RSSFeed) (items : List RSSItem) (urls : List String) : BatchState :=
  if ((prefilter p (feeds.map (fun f => f.url)) urls).2).isEmpty then
    initBatchState feeds items (prefilter p (feeds.map (fun f => f.url)) urls).1
  else
    runWorker cfg ((prefilter p (feeds.map (fun f => f.url)) urls).2).length
      (prefilter p (feeds.map (fun f => f.url)) urls).2 0
      (initBatchState feeds items (prefilter p (feeds.map (fun f => f.url)) urls).1)

/-- The event block of `j` consecutively finished items starting at
completion counter `c`: each item completion is immediately followed by its
progress callback, whose current value increments by exactly one. -/
def progressBlocks (total : Nat) : List String → Nat → List BatchEvent
  | [], _ => []
  | u :: rest, c =>
    BatchEvent.itemDone u :: BatchEvent.progress (c + 1) total :: progressBlocks total rest (c + 1)

/-- The current value carried by a progress event. -/
def progressCurrent : BatchEvent → Option Nat
  | .progress current _ => some current
  | .itemDone _ => none

/-- The progress values inside an event block are consecutive. -/
theorem progressBlocks_filterMap (total : Nat) :
    ∀ (l : List String) (c : Nat),
      (progressBlocks total l c).filterMap progressCurrent = List.range' (c + 1) l.length := by
  intro l
  induction l with
  | nil => intro c; rfl
  | cons u rest ih =>
    intro c
    simp only [progressBlocks, List.filterMap_cons, progressCurrent, List.length_cons,
      List.range'_succ, ih (c + 1)]

/-- Every progress event in a block carries the fixed total. -/
theorem progressBlocks_total (total : Nat) :
    ∀ (l : List String) (c : Nat) (cur t : Nat),
      BatchEvent.progress cur t ∈ progressBlocks total l c → t = total := by
  intro l
  induction l with
  | nil => intro c cur t h; cases h
  | cons u rest ih =>
    intro c cur t h
    simp only [progressBlocks, List.mem_cons] at h
    rcases h with h | h | h
    · cases h
    · cases h; rfl
    · exact ih (c + 1) cur t h

/-- Event-trace shape of the worker loop: some prefix of the candidates is
fully processed, each finished item appends its completion event and one
progress callback with the counter incremented by exactly one, and nothing
is appended after the first observed cancellation; an uninterrupted run
processes every candidate. -/
theorem runWorker_events (cfg : BatchConfig) (total : Nat) :
    ∀ (cands : List String) (idx : Nat) (st : BatchState),
      ∃ j, j ≤ cands.length ∧
        (runWorker cfg total cands idx st).events
          = st.events ++ progressBlocks total (cands.take j) st.completed ∧
        ((∀ i, cfg.cancelAt i = false ∧ cfg.outcomes i ≠ ItemOutcome.aborted) →
          j = cands.length) := by
  intro cands
  induction cands with
  | nil =>
    intro idx st
    exact ⟨0, Nat.le_refl 0, by simp [runWorker, progressBlocks], fun _ => rfl⟩
  | cons u rest ih =>
    intro idx st
    cases hc : cfg.cancelAt idx with
    | true =>
      refine ⟨0, Nat.zero_le _, by simp [runWorker, hc, progressBlocks], ?_⟩
      intro hun
      rw [(hun idx).1] at hc
      cases hc
    | false =>
      cases ho : cfg.outcomes idx with
      | aborted =>
        refine ⟨0, Nat.zero_le _, by simp [runWorker, hc, ho, progressBlocks], ?_⟩
        intro hun
        exact absurd ho (hun idx).2
      | err m =>
        obtain ⟨j, hle, hev, hun⟩ := ih (idx + 1)
          (finishItem
            { st with failed := st.failed + 1, errors := st.errors ++ [u ++ ": " ++ m] }
            u total)
        have heq : runWorker cfg total (u :: rest) idx st
            = runWorker cfg total rest (idx + 1)
                (finishItem
                  { st with failed := st.failed + 1, errors := st.errors ++ [u ++ ": " ++ m] }
                  u total) := by
          simp [runWorker, hc, ho]
        refine ⟨j + 1, by simpa using Nat.succ_le_succ hle, ?_, ?_⟩
        · rw [heq, hev]
          simp [finishItem, progressBlocks, List.append_assoc]
        · intro h
          simp [hun h]
      | ok pf =>
        by_cases hz : pf.items.length = 0
        · obtain ⟨j, hle, hev, hun⟩ := ih (idx + 1)
            (finishItem
              { st with failed := st.failed + 1, errors := st.errors ++ [noEntriesMsg u] }
              u total)
          have heq : runWorker cfg total (u :: rest) idx st
              = runWorker cfg total rest (idx + 1)
                  (finishItem
                    { st with failed := st.failed + 1, errors := st.errors ++ [noEntriesMsg u] }
                    u total) := by
            simp [runWorker, hc, ho, hz]
          refine ⟨j + 1, by simpa using Nat.succ_le_succ hle, ?_, ?_⟩
          · rw [heq, hev]
            simp [finishItem, progressBlocks, List.append_assoc]
          · intro h
            simp [hun h]
        · obtain ⟨j, hle, hev, hun⟩ := ih (idx + 1)
            (finishItem
              { st with
                feeds := commitFeed cfg idx u pf :: st.feeds,
                items := convertToRSSItems pf.items (cfg.genId idx) cfg.now ++ st.items,
                success := st.success + 1 }
              u total)
          have heq : runWorker cfg total (u :: rest) idx st
              = runWorker cfg total rest (idx + 1)
                  (finishItem
                    { st with
                      feeds := commitFeed cfg idx u pf :: st.feeds,
                      items := convertToRSSItems pf.items (cfg.genId idx) cfg.now ++ st.items,
                      success := st.success + 1 }
                    u total) := by
            simp [runWorker, hc, ho, hz]
          refine ⟨j + 1, by simpa using Nat.succ_le_succ hle, ?_, ?_⟩
          · rw [heq, hev]
            simp [finishItem, progressBlocks, List.append_assoc]
          · intro h
            simp [hun h]

/-- C9. Progress reporting of a batch: the event trace is the block trace
of some prefix of the candidate list — so every `onProgress` call fires
immediately after an item completes, never before; the sequence of
`completed` values passed is exactly 1, 2, ..., j (strictly increasing by
one per invocation); every call receives the same fixed total, the
candidate count; and an uninterrupted batch ends with `completed = total`. -/
theorem batch_progress_reporting (cfg : BatchConfig) (p : String → Option String)
    (feeds : List RSSFeed) (items : List RSSItem) (urls : List String) :
    ∃ j, j ≤ ((prefilter p (feeds.map (fun f => f.url)) urls).2).length ∧
      (addFeedsBatch cfg p feeds items urls).events
        = progressBlocks ((prefilter p (feeds.map (fun f => f.url)) urls).2).length
            (((prefilter p (feeds.map (fun f => f.url)) urls).2).take j) 0 ∧
      (addFeedsBatch cfg p feeds items urls).events.filterMap progressCurrent
        = List.range' 1 j ∧
      (∀ cur t, BatchEvent.progress cur t ∈ (addFeedsBatch cfg p feeds items urls).events →
        t = ((prefilter p (feeds.map (fun f => f.url)) urls).2).length) ∧
      ((∀ i, cfg.cancelAt i = false ∧ cfg.outcomes i ≠ ItemOutcome.aborted) →
        j = ((prefilter p (feeds.map (fun f => f.url)) urls).2).length) := by
  by_cases he : ((prefilter p (feeds.map (fun f => f.url)) urls).2).isEmpty
  · have hnil : (prefilter p (feeds.map (fun f => f.url)) urls).2 = [] :=
      List.isEmpty_iff.mp he
    refine ⟨0, by simp [hnil], ?_, ?_, ?_, by simp [hnil]⟩
    · simp [addFeedsBatch, he, initBatchState, hnil, progressBlocks]
    · simp [addFeedsBatch, he, initBatchState]
    · intro cur t hmem
      simp [addFeedsBatch, he, initBatchState] at hmem
  · obtain ⟨j, hle, hev, hun⟩ := runWorker_events cfg
      ((prefilter p (feeds.map (fun f => f.url)) urls).2).length
      (prefilter p (feeds.map (fun f => f.url)) urls).2 0
      (initBatchState feeds items (prefilter p (feeds.map (fun f => f.url)) urls).1)
    have habb : addFeedsBatch cfg p feeds items urls =
        runWorker cfg ((prefilter p (feeds.map (fun f => f.url)) urls).2).length
          (prefilter p (feeds.map (fun f => f.url)) urls).2 0
          (initBatchState feeds items (prefilter p (feeds.map (fun f => f.url)) urls).1) := by
      unfold addFeedsBatch
      rw [if_neg (by simpa using he)]
    have hev2 : (addFeedsBatch cfg p feeds items urls).events =
        progressBlocks ((prefilter p (feeds.map (fun f => f.url)) urls).2).length
          (((prefilter p (feeds.map (fun f => f.url)) urls).2).take j) 0 := by
      rw [habb, hev]
      simp [initBatchState]
    refine ⟨j, hle, hev2, ?_, ?_, hun⟩
    · rw [hev2, progressBlocks_filterMap]
      have hlt : (((prefilter p (feeds.map (fun f => f.url)) urls).2).take j).length = j := by
        simp [List.length_take]
        omega
      rw [hlt]
    · intro cur t hmem
      rw [hev2] at hmem
      exact progressBlocks_total _ _ _ cur t hmem

/-- Concrete uncancelled one-item feed used by the batch witnesses. -/
def pfCex : ParsedFeed :=
  { title := "T", description := none,
    items := [{ title := some "a", link := some "http://u/p", content := some "c",
                contentSnippet := none, pubDate := none, author := none,
                categories := none, guid := none }] }

/-- URL-parse oracle that accepts everything with scheme "http:". -/
def pAll : String → Option String := fun _ => some "http:"

/-- Batch environment of the C9 witness: no cancellation, every item
succeeds. -/
def cfgW : BatchConfig :=
  { outcomes := fun _ => ItemOutcome.ok pfCex, cancelAt := fun _ => false,
    genId := fun i => "g" ++ toString i, now := 11 }

/-- Witness for C9 at a concrete uninterrupted two-item batch. -/
theorem batch_progress_reporting_witness :
    ∃ j, j ≤ ((prefilter pAll (([] : List RSSFeed).map (fun f => f.url)) ["http://u1", "http://u2"]).2).length ∧
      (addFeedsBatch cfgW pAll [] [] ["http://u1", "http://u2"]).events
        = progressBlocks ((prefilter pAll (([] : List RSSFeed).map (fun f => f.url)) ["http://u1", "http://u2"]).2).length
            (((prefilter pAll (([] : List RSSFeed).map (fun f => f.url)) ["http://u1", "http://u2"]).2).take j) 0 ∧
      (addFeedsBatch cfgW pAll [] [] ["http://u1", "http://u2"]).events.filterMap progressCurrent
        = List.range' 1 j ∧
      (∀ cur t,
        BatchEvent.progress cur t ∈ (addFeedsBatch cfgW pAll [] [] ["http://u1", "http://u2"]).events →
        t = ((prefilter pAll (([] : List RSSFeed).map (fun f => f.url)) ["http://u1", "http://u2"]).2).length) ∧
      ((∀ i, cfgW.cancelAt i = false ∧ cfgW.outcomes i ≠ ItemOutcome.aborted) →
        j = ((prefilter pAll (([] : List RSSFeed).map (fun f => f.url)) ["http://u1", "http://u2"]).2).length) :=
  batch_progress_reporting cfgW pAll [] [] ["http://u1", "http://u2"]

/-- The feeds committed by an all-success run over a candidate list,
newest first (each commit prepends). -/
def committedFeeds (cfg : BatchConfig) (pfs : Nat → ParsedFeed) :
    List String → Nat → List RSSFeed
  | [], _ => []
  | u :: rest, idx => committedFeeds cfg pfs rest (idx + 1) ++ [commitFeed cfg idx u (pfs idx)]

/-- The entries committed by an all-success run over a candidate list,
grouped newest-feed first. -/
def committedItems (cfg : BatchConfig) (pfs : Nat → ParsedFeed) :
    List String → Nat → List RSSItem
  | [], _ => []
  | u :: rest, idx =>
    committedItems cfg pfs rest (idx + 1)
      ++ convertToRSSItems (pfs idx).items (cfg.genId idx) cfg.now

/-- One committed feed per candidate. -/
theorem committedFeeds_length (cfg : BatchConfig) (pfs : Nat → ParsedFeed) :
    ∀ (l : List String) (idx : Nat), (committedFeeds cfg pfs l idx).length = l.length := by
  intro l
  induction l with
  | nil => intro idx; rfl
  | cons u rest ih => intro idx; simp [committedFeeds, ih]

/-- A worker run in which every claimed item is an uncancelled success
commits exactly one feed and one entry batch per candidate, counts every
candidate as a success, and appends the full progress-block trace. -/
theorem runWorker_all_success (cfg : BatchConfig) (total : Nat) (pfs : Nat → ParsedFeed) :
    ∀ (cands : List String) (idx : Nat) (st : BatchState),
      (∀ j, j < cands.length → cfg.cancelAt (idx + j) = false) →
      (∀ j, j < cands.length →
        cfg.outcomes (idx + j) = ItemOutcome.ok (pfs (idx + j)) ∧
          0 < (pfs (idx + j)).items.length) →
      runWorker cfg total cands idx st =
        { st with
          feeds := committedFeeds cfg pfs cands idx ++ st.feeds,
          items := committedItems cfg pfs cands idx ++ st.items,
          success := st.success + cands.length,
          completed := st.completed + cands.length,
          events := st.events ++ progressBlocks total cands st.completed } := by
  intro cands
  induction cands with
  | nil =>
    intro idx st _ _
    simp [runWorker, committedFeeds, committedItems, progressBlocks]
  | cons u rest ih =>
    intro idx st hnc hok
    have hc : cfg.cancelAt idx = false := by
      have := hnc 0 (by simp)
      simpa using this
    have ho : cfg.outcomes idx = ItemOutcome.ok (pfs idx) ∧ 0 < (pfs idx).items.length := by
      have := hok 0 (by simp)
      simpa using this
    have hz : ¬((pfs idx).items.length = 0) := by omega
    have heq : runWorker cfg total (u :: rest) idx st
        = runWorker cfg total rest (idx + 1)
            (finishItem
              { st with
                feeds := commitFeed cfg idx u (pfs idx) :: st.feeds,
                items := convertToRSSItems (pfs idx).items (cfg.genId idx) cfg.now ++ st.items,
                success := st.success + 1 }
              u total) := by
      simp [runWorker, hc, ho.1, hz]
    rw [heq, ih (idx + 1) _
      (fun j hj => by
        have := hnc (j + 1) (by simpa using Nat.succ_lt_succ hj)
        have harith : idx + (j + 1) = idx + 1 + j := by omega
        rwa [harith] at this)
      (fun j hj => by
        have := hok (j + 1) (by simpa using Nat.succ_lt_succ hj)
        have harith : idx + (j + 1) = idx + 1 + j := by omega
        rwa [harith] at this)]
    simp only [finishItem, committedFeeds, committedItems, progressBlocks]
    simp [List.append_assoc, BatchState.mk.injEq, Nat.add_assoc, Nat.add_comm,
      Nat.add_left_comm]

/-- A worker run that observes cancellation after `k` fully processed
items behaves exactly like a run over the first `k` candidates. -/
theorem runWorker_cancel_truncates (cfg : BatchConfig) (total : Nat) :
    ∀ (cands : List String) (k idx : Nat) (st : BatchState),
      (∀ j, j < k →
        cfg.cancelAt (idx + j) = false ∧ cfg.outcomes (idx + j) ≠ ItemOutcome.aborted) →
      cfg.cancelAt (idx + k) = true →
      runWorker cfg total cands idx st = runWorker cfg total (cands.take k) idx st := by
  intro cands
  induction cands with
  | nil => intro k idx st _ _; simp [runWorker]
  | cons u rest ih =>
    intro k idx st hrun hcancel
    cases k with
    | zero =>
      have hc : cfg.cancelAt idx = true := by simpa using hcancel
      simp [runWorker, hc]
    | succ k =>
      have h0 := hrun 0 (by simp)
      have hc : cfg.cancelAt idx = false := by simpa using h0.1
      have hna : cfg.outcomes idx ≠ ItemOutcome.aborted := by simpa using h0.2
      have hrun2 : ∀ j, j < k →
          cfg.cancelAt (idx + 1 + j) = false ∧
            cfg.outcomes (idx + 1 + j) ≠ ItemOutcome.aborted := by
        intro j hj
        have := hrun (j + 1) (by omega)
        have harith : idx + (j + 1) = idx + 1 + j := by omega
        rwa [harith] at this
      have hcancel2 : cfg.cancelAt (idx + 1 + k) = true := by
        have harith : idx + (k + 1) = idx + 1 + k := by omega
        rwa [harith] at hcancel
      cases ho : cfg.outcomes idx with
      | aborted => exact absurd ho hna
      | err m =>
        simp only [List.take_succ_cons, runWorker, hc, ho]
        simp only [Bool.false_eq_true, if_false]
        exact ih k (idx + 1) _ hrun2 hcancel2
      | ok pf =>
        by_cases hz : pf.items.length = 0
        · simp only [List.take_succ_cons, runWorker, hc, ho]
          simp only [Bool.false_eq_true, if_false, if_pos hz]
          exact ih k (idx + 1) _ hrun2 hcancel2
        · simp only [List.take_succ_cons, runWorker, hc, ho]
          simp only [Bool.false_eq_true, if_false, if_neg hz]
          exact ih k (idx + 1) _ hrun2 hcancel2

/-- C2 (amended). Cancelling a batch after `k` candidates have committed
leaves exactly those `k` feeds (and their entries) in state — nothing is
rolled back — and the function still RETURNS its `IngestionResult`, which
reports the partial outcome: `success = k` and the pre-filter counts. -/
theorem batch_cancel_keeps_commits_returns_partial
    (cfg : BatchConfig) (p : String → Option String) (feeds : List RSSFeed)
    (items : List RSSItem) (urls : List String) (pfs : Nat → ParsedFeed) (k : Nat)
    (hk : k < ((prefilter p (feeds.map (fun f => f.url)) urls).2).length)
    (hok : ∀ j, j < k → cfg.outcomes j = ItemOutcome.ok (pfs j) ∧ 0 < (pfs j).items.length)
    (hnc : ∀ j, j < k → cfg.cancelAt j = false)
    (hcancel : cfg.cancelAt k = true) :
    (addFeedsBatch cfg p feeds items urls).feeds
      = committedFeeds cfg pfs
          (((prefilter p (feeds.map (fun f => f.url)) urls).2).take k) 0 ++ feeds ∧
    (addFeedsBatch cfg p feeds items urls).items
      = committedItems cfg pfs
          (((prefilter p (feeds.map (fun f => f.url)) urls).2).take k) 0 ++ items ∧
    (committedFeeds cfg pfs
        (((prefilter p (feeds.map (fun f => f.url)) urls).2).take k) 0).length = k ∧
    resultOf (addFeedsBatch cfg p feeds items urls)
      = { success := k, failed := (prefilter p (feeds.map (fun f => f.url)) urls).1.failed,
          skipped := (prefilter p (feeds.map (fun f => f.url)) urls).1.skipped,
          errors := (prefilter p (feeds.map (fun f => f.url)) urls).1.errors } := by
  have hne : ¬(((prefilter p (feeds.map (fun f => f.url)) urls).2).isEmpty = true) := by
    intro h
    rw [List.isEmpty_iff] at h
    rw [h] at hk
    simp at hk
  have habb : addFeedsBatch cfg p feeds items urls
      = runWorker cfg ((prefilter p (feeds.map (fun f => f.url)) urls).2).length
          (prefilter p (feeds.map (fun f => f.url)) urls).2 0
          (initBatchState feeds items (prefilter p (feeds.map (fun f => f.url)) urls).1) := by
    unfold addFeedsBatch
    rw [if_neg hne]
  have htrunc := runWorker_cancel_truncates cfg
    ((prefilter p (feeds.map (fun f => f.url)) urls).2).length
    (prefilter p (feeds.map (fun f => f.url)) urls).2 k 0
    (initBatchState feeds items (prefilter p (feeds.map (fun f => f.url)) urls).1)
    (fun j hj => by
      refine ⟨by simpa using hnc j hj, ?_⟩
      have := (hok j hj).1
      simp [this])
    (by simpa using hcancel)
  have hlen : ((((prefilter p (feeds.map (fun f => f.url)) urls).2)).take k).length = k := by
    simp only [List.length_take]
    omega
  have hfull := runWorker_all_success cfg
    ((prefilter p (feeds.map (fun f => f.url)) urls).2).length pfs
    (((prefilter p (feeds.map (fun f => f.url)) urls).2).take k) 0
    (initBatchState feeds items (prefilter p (feeds.map (fun f => f.url)) urls).1)
    (fun j hj => by
      rw [hlen] at hj
      simpa using hnc j hj)
    (fun j hj => by
      rw [hlen] at hj
      simpa using hok j hj)
  rw [habb, htrunc, hfull]
  have hs := prefilter_success p (feeds.map (fun f => f.url)) urls
  refine ⟨by simp [initBatchState], by simp [initBatchState],
    by rw [committedFeeds_length, hlen], ?_⟩
  simp [resultOf, initBatchState, hs, hlen]

/-- The ten-URL batch of the C2 concrete runs. -/
def urls10 : List String :=
  ["http://u0", "http://u1", "http://u2", "http://u3", "http://u4",
   "http://u5", "http://u6", "http://u7", "http://u8", "http://u9"]

/-- Batch environment cancelled at the fourth claim: the first three items
succeed, the cancellation flag is observed from index 3 on. -/
def cfgCancel3 : BatchConfig :=
  { outcomes := fun _ => ItemOutcome.ok pfCex, cancelAt := fun i => decide (3 ≤ i),
    genId := fun i => "g" ++ toString i, now := 11 }

/-- C2 (counterexample). Cancelling the ten-item batch after three commits:
exactly the three committed feeds remain (no rollback) — but
`addFeedsBatch` RETURNS its `IngestionResult`, and that delivered value
reports the partial outcome `success = 3`; the operation completes with a
partial result instead of being abandoned as the claim states. -/
theorem batch_cancel_delivers_partial_result_cex :
    resultOf (addFeedsBatch cfgCancel3 pAll [] [] urls10)
      = { success := 3, failed := 0, skipped := 0, errors := [] } ∧
    (addFeedsBatch cfgCancel3 pAll [] [] urls10).feeds.map (fun f => f.url)
      = ["http://u2", "http://u1", "http://u0"] ∧
    (addFeedsBatch cfgCancel3 pAll [] [] urls10).items.map (fun i => i.feedId)
      = ["g2", "g1", "g0"] := by
  decide

/-- Witness for C2 (amended) at the concrete cancelled run. -/
theorem batch_cancel_keeps_commits_returns_partial_witness :
    (addFeedsBatch cfgCancel3 pAll [] [] urls10).feeds
      = committedFeeds cfgCancel3 (fun _ => pfCex)
          (((prefilter pAll (([] : List RSSFeed).map (fun f => f.url)) urls10).2).take 3) 0
          ++ [] ∧
    (addFeedsBatch cfgCancel3 pAll [] [] urls10).items
      = committedItems cfgCancel3 (fun _ => pfCex)
          (((prefilter pAll (([] : List RSSFeed).map (fun f => f.url)) urls10).2).take 3) 0
          ++ [] ∧
    (committedFeeds cfgCancel3 (fun _ => pfCex)
        (((prefilter pAll (([] : List RSSFeed).map (fun f => f.url)) urls10).2).take 3) 0).length
      = 3 ∧
    resultOf (addFeedsBatch cfgCancel3 pAll [] [] urls10)
      = { success := 3,
          failed := (prefilter pAll (([] : List RSSFeed).map (fun f => f.url)) urls10).1.failed,
          skipped := (prefilter pAll (([] : List RSSFeed).map (fun f => f.url)) urls10).1.skipped,
          errors := (prefilter pAll (([] : List RSSFeed).map (fun f => f.url)) urls10).1.errors } :=
  batch_cancel_keeps_commits_returns_partial cfgCancel3 pAll [] [] urls10 (fun _ => pfCex) 3
    (by decide) (by decide) (by decide) (by decide)

/-- Occurrence counting through `filterMap`: every occurrence of `u` in the
input contributes one occurrence of its image `w` to the output. -/
theorem count_le_count_filterMap (g : String → Option String) (u w : String)
    (hg : g u = some w) : ∀ l : List String, l.count u ≤ (l.filterMap g).count w := by
  intro l
  induction l with
  | nil => simp
  | cons v rest ih =>
    rw [List.filterMap_cons]
    cases hv : g v with
    | none =>
      have hvu : v ≠ u := by
        intro h
        rw [h, hg] at hv
        cases hv
      simpa [List.count_cons, hvu] using ih
    | some w2 =>
      by_cases h : v = u
      · subst h
        rw [hg] at hv
        injection hv with hw
        subst hw
        simp [List.count_cons]
        omega
      · simp only [List.count_cons]
        have hvu : (v == u) = false := by simp [h]
        rw [hvu]
        simp only [Bool.false_eq_true, if_false]
        exact Nat.le_trans (by simpa using ih) (Nat.le_add_right _ _)

/-- The committed feeds with a given URL are exactly the candidates with
that URL. -/
theorem committedFeeds_filter_count (cfg : BatchConfig) (pfs : Nat → ParsedFeed)
    (w : String) :
    ∀ (l : List String) (idx : Nat),
      ((committedFeeds cfg pfs l idx).filter (fun f => f.url == w)).length = l.count w := by
  intro l
  induction l with
  | nil => intro idx; simp [committedFeeds]
  | cons v rest ih =>
    intro idx
    rw [List.count_cons]
    simp only [committedFeeds, List.filter_append, List.length_append, ih (idx + 1)]
    by_cases h : v = w
    · subst h; simp [commitFeed]
    · simp [commitFeed, h]

/-- The ids of the committed feeds are the `generateId` supply at the
claimed indices. -/
theorem committedFeeds_ids (cfg : BatchConfig) (pfs : Nat → ParsedFeed) :
    ∀ (l : List String) (idx : Nat),
      (committedFeeds cfg pfs l idx).map (fun f => f.id)
        = ((List.range' idx l.length).map cfg.genId).reverse := by
  intro l
  induction l with
  | nil => intro idx; rfl
  | cons v rest ih =>
    intro idx
    simp [committedFeeds, List.map_append, ih (idx + 1), List.range'_succ, commitFeed]

/-- Distinct ids for all feeds committed in one run, under an injective id
supply. -/
theorem committedFeeds_ids_nodup (cfg : BatchConfig) (pfs : Nat → ParsedFeed)
    (l : List String)
    (hinj : ∀ i, i < l.length → ∀ j, j < l.length → cfg.genId i = cfg.genId j → i = j) :
    ((committedFeeds cfg pfs l 0).map (fun f => f.id)).Nodup := by
  rw [committedFeeds_ids]
  rw [List.nodup_reverse]
  refine List.Nodup.map_on ?_ (List.nodup_range' 0 l.length)
  intro x hx y hy hxy
  rw [List.mem_range'_1] at hx hy
  exact hinj x (by omega) y (by omega) hxy

/-- C10. Batch deduplication is computed once against the feed set as it
was when the batch started: a not-yet-subscribed URL occurring several
times in one input list survives pre-filtering once per occurrence (each
occurrence its own candidate), and in an uninterrupted all-success run each
occurrence commits its own new feed, each with its own distinct id — the
duplicate-skip check never observes feeds committed earlier in the same
batch. -/
theorem batch_dedup_only_against_initial_feeds
    (cfg : BatchConfig) (p : String → Option String) (feeds : List RSSFeed)
    (items : List RSSItem) (urls : List String) (pfs : Nat → ParsedFeed) (u : String)
    (hgood : checkUrl p (feeds.map (fun f => f.url)) u = UrlCheck.candidate)
    (hok : ∀ j, j < ((prefilter p (feeds.map (fun f => f.url)) urls).2).length →
      cfg.outcomes j = ItemOutcome.ok (pfs j) ∧ 0 < (pfs j).items.length)
    (hnc : ∀ j, j < ((prefilter p (feeds.map (fun f => f.url)) urls).2).length →
      cfg.cancelAt j = false)
    (hinj : ∀ i, i < ((prefilter p (feeds.map (fun f => f.url)) urls).2).length →
      ∀ j, j < ((prefilter p (feeds.map (fun f => f.url)) urls).2).length →
      cfg.genId i = cfg.genId j → i = j) :
    urls.count u ≤ ((prefilter p (feeds.map (fun f => f.url)) urls).2).count (jsTrim u) ∧
    feeds.filter (fun f => f.url == jsTrim u) = [] ∧
    ((addFeedsBatch cfg p feeds items urls).feeds.filter
        (fun f => f.url == jsTrim u)).length
      = ((prefilter p (feeds.map (fun f => f.url)) urls).2).count (jsTrim u) ∧
    (((addFeedsBatch cfg p feeds items urls).feeds.filter
        (fun f => f.url == jsTrim u)).map (fun f => f.id)).Nodup := by
  have hg : urlCandidate p (feeds.map (fun f => f.url)) u = some (jsTrim u) := by
    unfold urlCandidate
    rw [hgood]
  have hcount : urls.count u
      ≤ ((prefilter p (feeds.map (fun f => f.url)) urls).2).count (jsTrim u) := by
    rw [prefilter_candidates]
    exact count_le_count_filterMap _ u (jsTrim u) hg urls
  have hnotmem : jsTrim u ∉ feeds.map (fun f => f.url) :=
    checkUrl_candidate_not_mem p (feeds.map (fun f => f.url)) u hgood
  have hfeeds_nil : feeds.filter (fun f => f.url == jsTrim u) = [] := by
    rw [List.filter_eq_nil_iff]
    intro f hf
    simp only [beq_iff_eq]
    intro heq
    exact hnotmem (List.mem_map.mpr ⟨f, hf, heq⟩)
  by_cases he : (((prefilter p (feeds.map (fun f => f.url)) urls).2).isEmpty = true)
  · have hnil : (prefilter p (feeds.map (fun f => f.url)) urls).2 = [] :=
      List.isEmpty_iff.mp he
    have habb : addFeedsBatch cfg p feeds items urls
        = initBatchState feeds items (prefilter p (feeds.map (fun f => f.url)) urls).1 := by
      unfold addFeedsBatch
      rw [if_pos he]
    refine ⟨hcount, hfeeds_nil, ?_, ?_⟩
    · rw [habb, hnil]
      simp [initBatchState, hfeeds_nil]
    · rw [habb]
      simp [initBatchState, hfeeds_nil]
  · have habb : addFeedsBatch cfg p feeds items urls
        = runWorker cfg ((prefilter p (feeds.map (fun f => f.url)) urls).2).length
            (prefilter p (feeds.map (fun f => f.url)) urls).2 0
            (initBatchState feeds items (prefilter p (feeds.map (fun f => f.url)) urls).1) := by
      unfold addFeedsBatch
      rw [if_neg he]
    have hfull := runWorker_all_success cfg
      ((prefilter p (feeds.map (fun f => f.url)) urls).2).length pfs
      (prefilter p (feeds.map (fun f => f.url)) urls).2 0
      (initBatchState feeds items (prefilter p (feeds.map (fun f => f.url)) urls).1)
      (fun j hj => by simpa using hnc j hj)
      (fun j hj => by simpa using hok j hj)
    have hfeeds : (addFeedsBatch cfg p feeds items urls).feeds
        = committedFeeds cfg pfs (prefilter p (feeds.map (fun f => f.url)) urls).2 0
            ++ feeds := by
      rw [habb, hfull]
      simp [initBatchState]
    refine ⟨hcount, hfeeds_nil, ?_, ?_⟩
    · rw [hfeeds, List.filter_append, hfeeds_nil, List.append_nil,
        committedFeeds_filter_count]
    · rw [hfeeds, List.filter_append, hfeeds_nil, List.append_nil]
      have hsub : List.Sublist
          (((committedFeeds cfg pfs
              (prefilter p (feeds.map (fun f => f.url)) urls).2 0).filter
                (fun f => f.url == jsTrim u)).map (fun f => f.id))
          ((committedFeeds cfg pfs
              (prefilter p (feeds.map (fun f => f.url)) urls).2 0).map (fun f => f.id)) :=
        List.Sublist.map _ (List.filter_sublist _)
      exact (committedFeeds_ids_nodup cfg pfs _ hinj).sublist hsub

/-- Witness for C10: the same unsubscribed URL twice in one batch; both
occurrences become candidates and commit distinct feeds. -/
theorem batch_dedup_only_against_initial_feeds_witness :
    (["http://u", "http://u"] : List String).count "http://u"
      ≤ ((prefilter pAll (([] : List RSSFeed).map (fun f => f.url))
          ["http://u", "http://u"]).2).count (jsTrim "http://u") ∧
    ([] : List RSSFeed).filter (fun f => f.url == jsTrim "http://u") = [] ∧
    ((addFeedsBatch cfgW pAll [] [] ["http://u", "http://u"]).feeds.filter
        (fun f => f.url == jsTrim "http://u")).length
      = ((prefilter pAll (([] : List RSSFeed).map (fun f => f.url))
          ["http://u", "http://u"]).2).count (jsTrim "http://u") ∧
    (((addFeedsBatch cfgW pAll [] [] ["http://u", "http://u"]).feeds.filter
        (fun f => f.url == jsTrim "http://u")).map (fun f => f.id)).Nodup :=
  batch_dedup_only_against_initial_feeds cfgW pAll [] [] ["http://u", "http://u"]
    (fun _ => pfCex) "http://u" (by decide) (by decide) (by decide) (by decide)

/-- A stored entry set with user-assigned flags: the parse-produced entries
with each entry's `isRead`/`isStarred` replaced (only explicit user actions
touch these flags). -/
def withFlags (l : List RSSItem) (fl : List (Bool × Bool)) : List RSSItem :=
  List.zipWith (fun e q => { e with isRead := q.1, isStarred := q.2 }) l fl

/-- The comparison key of the idempotence claim: (link, content, isRead,
isStarred). -/
def entryKey (e : RSSItem) : String × String × Bool × Bool :=
  (e.link, e.content, e.isRead, e.isStarred)

/-- Indexing into `withFlags`. -/
theorem withFlags_getElem? :
    ∀ (l : List RSSItem) (fl : List (Bool × Bool)) (k : Nat),
      (withFlags l fl)[k]? =
        match l[k]?, fl[k]? with
        | some e, some q => some { e with isRead := q.1, isStarred := q.2 }
        | _, _ => none := by
  intro l
  induction l with
  | nil => intro fl k; cases fl <;> cases k <;> simp [withFlags]
  | cons e le ih =>
    intro fl k
    cases fl with
    | nil => cases k <;> simp [withFlags]
    | cons q lq =>
      cases k with
      | zero => simp [withFlags]
      | succ k => simpa [withFlags] using ih lq k

/-- Flag replacement does not change the links. -/
theorem withFlags_map_link :
    ∀ (l : List RSSItem) (fl : List (Bool × Bool)), l.length ≤ fl.length →
      (withFlags l fl).map (fun e => e.link) = l.map (fun e => e.link) := by
  intro l
  induction l with
  | nil => intro fl _; simp [withFlags]
  | cons e le ih =>
    intro fl hlen
    cases fl with
    | nil => simp at hlen
    | cons q lq =>
      simp only [withFlags, List.zipWith_cons_cons, List.map_cons]
      have := ih lq (by simpa using hlen)
      simp only [withFlags] at this
      rw [this]

/-- The links of converted items depend only on the parsed items. -/
theorem convertFrom_map_link (f : String) (now : Nat) :
    ∀ (ps : List ParsedItem) (i : Nat),
      (convertFrom f now i ps).map (fun e => e.link)
        = ps.map (fun it => jsOrStr it.link "") := by
  intro ps
  induction ps with
  | nil => intro i; rfl
  | cons it rest ih =>
    intro i
    simp [convertFrom, convertOne, ih]

/-- Every converted item carries the owning feed id. -/
theorem convertFrom_mem_feedId (f : String) (now : Nat) :
    ∀ (ps : List ParsedItem) (i : Nat) (e : RSSItem),
      e ∈ convertFrom f now i ps → e.feedId = f := by
  intro ps
  induction ps with
  | nil => intro i e h; cases h
  | cons it rest ih =>
    intro i e h
    rcases List.mem_cons.mp h with h | h
    · subst h; rfl
    · exact ih (i + 1) e h

/-- `find?` agrees with `find?` over a filtration when every hit satisfies
the filter. -/
theorem find?_eq_find?_filter (pb q : RSSItem → Bool) :
    ∀ l : List RSSItem, (∀ a ∈ l, pb a = true → q a = true) →
      l.find? pb = (l.filter q).find? pb := by
  intro l
  induction l with
  | nil => intro _; rfl
  | cons hd tl ih =>
    intro h
    have htl := ih (fun a ha => h a (List.mem_cons_of_mem hd ha))
    cases hp : pb hd with
    | true =>
      have hq : q hd = true := h hd (List.mem_cons_self hd tl) hp
      rw [List.filter_cons_of_pos hq, List.find?_cons_of_pos _ hp,
        List.find?_cons_of_pos _ hp]
    | false =>
      cases hq : q hd with
      | true =>
        rw [List.filter_cons_of_pos hq, List.find?_cons_of_neg _ (by simp [hp]),
          List.find?_cons_of_neg _ (by simp [hp])]
        exact htl
      | false =>
        rw [List.filter_cons_of_neg (by simp [hq]), List.find?_cons_of_neg _ (by simp [hp])]
        exact htl

/-- In a list with pairwise-distinct links, the first link match for the
k-th element's link is the k-th element itself. -/
theorem find?_link_nodup :
    ∀ (l : List RSSItem) (k : Nat) (e : RSSItem), l[k]? = some e →
      (l.map (fun x => x.link)).Nodup →
      l.find? (fun x => x.link == e.link) = some e := by
  intro l
  induction l with
  | nil => intro k e h; simp at h
  | cons hd tl ih =>
    intro k e hk hnd
    rw [List.map_cons, List.nodup_cons] at hnd
    cases k with
    | zero =>
      simp only [List.getElem?_cons_zero, Option.some.injEq] at hk
      subst hk
      exact List.find?_cons_of_pos _ (by simp)
    | succ k =>
      rw [List.getElem?_cons_succ] at hk
      have hmem : e ∈ tl := List.getElem?_mem hk
      have hne : hd.link ≠ e.link := by
        intro he
        exact hnd.1 (he ▸ List.mem_map.mpr ⟨e, hmem, rfl⟩)
      rw [List.find?_cons_of_neg _ (by simp [hne])]
      exact ih k e hk hnd.2

/-- C5 (amended). Refreshing a feed whose parse is unchanged is idempotent
— the post-refresh entries of that feed equal the pre-refresh ones by
(link, content, isRead, isStarred) and entries of other feeds are unchanged
— PROVIDED the parsed entries have pairwise-distinct links and no stored
entry of another feed shares a link with them; without that proviso the
whole-collection link lookup can import another feed's flags (see the
counterexample). The stored entries of the feed are the parse-produced
entries with arbitrary user-assigned flags; ids are not compared. -/
theorem refresh_unchanged_upstream_idempotent
    (parse : String → Option ParsedFeed) (feeds : List RSSFeed) (prev : List RSSItem)
    (feedId : String) (feed : RSSFeed) (pf : ParsedFeed) (ps : List ParsedItem)
    (fl : List (Bool × Bool)) (now0 now1 : Nat)
    (hfind : feeds.find? (fun f => f.id == feedId) = some feed)
    (hparse : parse feed.url = some pf)
    (hps : pf.items = ps)
    (hprevF : prev.filter (fun i => i.feedId == feedId)
      = withFlags (convertToRSSItems ps feedId now0) fl)
    (hfl : fl.length = ps.length)
    (hnodup : (ps.map (fun it => jsOrStr it.link "")).Nodup)
    (hnoshadow : ∀ e ∈ prev, e.feedId ≠ feedId → ∀ it ∈ ps, e.link ≠ jsOrStr it.link "") :
    (((refreshFeed parse feeds prev feedId now1).2).filter
        (fun i => i.feedId == feedId)).map entryKey
      = (prev.filter (fun i => i.feedId == feedId)).map entryKey ∧
    ((refreshFeed parse feeds prev feedId now1).2).filter (fun i => i.feedId != feedId)
      = prev.filter (fun i => i.feedId != feedId) := by
  have hsnd : (refreshFeed parse feeds prev feedId now1).2
      = (convertToRSSItems ps feedId now1).map (mergeOne prev)
        ++ prev.filter (fun i => i.feedId != feedId) := by
    simp [refreshFeed, hfind, hparse, hps, refreshItems, mergeRefresh]
  have hMfid : ∀ m ∈ (convertToRSSItems ps feedId now1).map (mergeOne prev),
      m.feedId = feedId := by
    intro m hm
    obtain ⟨n, hn, hmn⟩ := List.mem_map.mp hm
    have hnf : n.feedId = feedId := convertFrom_mem_feedId feedId now1 ps 0 n hn
    subst hmn
    unfold mergeOne
    cases prev.find? (fun i => i.link == n.link) <;> simp [hnf]
  have hC0link : (convertToRSSItems ps feedId now0).map (fun e => e.link)
      = ps.map (fun it => jsOrStr it.link "") := convertFrom_map_link feedId now0 ps 0
  have hprevFlink : (prev.filter (fun i => i.feedId == feedId)).map (fun e => e.link)
      = ps.map (fun it => jsOrStr it.link "") := by
    rw [hprevF, withFlags_map_link _ _ (by rw [convertToRSSItems_length, hfl]), hC0link]
  have hprevFnodup : ((prev.filter (fun i => i.feedId == feedId)).map
      (fun e => e.link)).Nodup := by
    rw [hprevFlink]; exact hnodup
  constructor
  · -- merged part versus stored part, compared by entryKey
    rw [hsnd, List.filter_append]
    have hfil1 : ((convertToRSSItems ps feedId now1).map (mergeOne prev)).filter
        (fun i => i.feedId == feedId)
        = (convertToRSSItems ps feedId now1).map (mergeOne prev) := by
      rw [List.filter_eq_self]
      intro m hm
      simp [hMfid m hm]
    have hfil2 : (prev.filter (fun i => i.feedId != feedId)).filter
        (fun i => i.feedId == feedId) = [] := by
      rw [List.filter_filter]
      rw [List.filter_eq_nil_iff]
      intro a _
      cases h : (a.feedId == feedId) <;> simp [bne, h]
    rw [hfil1, hfil2, List.append_nil]
    apply List.ext_getElem?
    intro k
    by_cases hk : k < ps.length
    · obtain ⟨psk, hpsk⟩ : ∃ it, ps[k]? = some it :=
        ⟨ps[k], List.getElem?_eq_getElem hk⟩
      obtain ⟨flk, hflk⟩ : ∃ q, fl[k]? = some q :=
        ⟨fl[k], List.getElem?_eq_getElem (by omega)⟩
      have hN : (convertToRSSItems ps feedId now1)[k]?
          = some (convertOne feedId now1 k psk) := by
        rw [convertToRSSItems_getElem?, hpsk]
        rfl
      have hE : (prev.filter (fun i => i.feedId == feedId))[k]?
          = some { convertOne feedId now0 k psk with isRead := flk.1, isStarred := flk.2 } := by
        rw [hprevF, withFlags_getElem?, convertToRSSItems_getElem?, hpsk, hflk]
        rfl
      have hlinkk : (convertOne feedId now1 k psk).link = jsOrStr psk.link "" := rfl
      have hlinkE : ({ convertOne feedId now0 k psk with
          isRead := flk.1, isStarred := flk.2 } : RSSItem).link = jsOrStr psk.link "" := rfl
      have hfindprev : prev.find?
          (fun i => i.link == (convertOne feedId now1 k psk).link)
          = some { convertOne feedId now0 k psk with
              isRead := flk.1, isStarred := flk.2 } := by
        rw [find?_eq_find?_filter _ (fun i => i.feedId == feedId) prev ?_]
        · have := find?_link_nodup (prev.filter (fun i => i.feedId == feedId)) k
            { convertOne feedId now0 k psk with isRead := flk.1, isStarred := flk.2 }
            hE hprevFnodup
          rw [hlinkk]
          rw [hlinkE] at this
          exact this
        · intro a ha hlink
          by_contra hfid
          have hfid2 : a.feedId ≠ feedId := by simpa using hfid
          have hmem : psk ∈ ps := List.getElem?_mem hpsk
          have := hnoshadow a ha hfid2 psk hmem
          rw [hlinkk] at hlink
          exact this (by simpa using hlink)
      have hmerge : mergeOne prev (convertOne feedId now1 k psk)
          = { convertOne feedId now1 k psk with isRead := flk.1, isStarred := flk.2 } := by
        unfold mergeOne
        rw [hfindprev]
      rw [List.getElem?_map, List.getElem?_map, List.getElem?_map, hN, hE]
      simp only [Option.map_some']
      rw [hmerge]
      simp [entryKey, convertOne]
    · have h1 : (((convertToRSSItems ps feedId now1).map (mergeOne prev)).map entryKey).length
          ≤ k := by
        rw [List.length_map, List.length_map, convertToRSSItems_length]
        omega
      have h2 : ((prev.filter (fun i => i.feedId == feedId)).map entryKey).length ≤ k := by
        rw [List.length_map, hprevF]
        have : (withFlags (convertToRSSItems ps feedId now0) fl).length ≤ ps.length := by
          simp [withFlags, convertToRSSItems_length, hfl]
        omega
      rw [List.getElem?_eq_none h1, List.getElem?_eq_none h2]
  · -- entries of other feeds unchanged
    rw [hsnd, List.filter_append]
    have hfil1 : ((convertToRSSItems ps feedId now1).map (mergeOne prev)).filter
        (fun i => i.feedId != feedId) = [] := by
      rw [List.filter_eq_nil_iff]
      intro m hm
      simp [hMfid m hm]
    have hfil2 : (prev.filter (fun i => i.feedId != feedId)).filter
        (fun i => i.feedId != feedId) = prev.filter (fun i => i.feedId != feedId) := by
      rw [List.filter_filter]
      simp
    rw [hfil1, hfil2, List.nil_append]

/-- Parsed items of the unchanged-upstream refresh examples. -/
def psIdem : List ParsedItem :=
  [{ title := some "t", link := some "http://l", content := some "c",
     contentSnippet := some "s", pubDate := none, author := none, categories := none,
     guid := none }]

/-- The parsed feed the upstream keeps serving. -/
def pfIdem : ParsedFeed := { title := "F", description := none, items := psIdem }

/-- Parse oracle that always returns the same feed document. -/
def parseIdem : String → Option ParsedFeed := fun _ => some pfIdem

/-- The refreshed feed record. -/
def feedF : RSSFeed :=
  { id := "f", title := "F", url := "http://feed", description := none, lastUpdated := 0 }

/-- The stored entry of feed "f", exactly as the earlier parse produced it. -/
def eF : RSSItem :=
  { id := "f-0-5", feedId := "f", title := "t", link := "http://l", description := "s",
    content := "c", pubDate := none, author := none, categories := none,
    isRead := false, isStarred := false }

/-- A stored entry of ANOTHER feed "g" sharing the same link, read by the
user. -/
def eG : RSSItem :=
  { id := "g-0-5", feedId := "g", title := "tg", link := "http://l", description := "",
    content := "cg", pubDate := none, author := none, categories := none,
    isRead := true, isStarred := false }

/-- C5 (counterexample). Feed "f" stores exactly what parsing `psIdem`
produced, upstream is unchanged, yet the refresh is NOT idempotent: the
whole-collection link lookup finds feed "g"'s entry first and imports its
`isRead = true`, so the post-refresh key set of feed "f" differs from the
pre-refresh one. -/
theorem refresh_idempotence_cross_feed_cex :
    [eF] = withFlags (convertToRSSItems psIdem "f" 5) [(false, false)] ∧
    eG.feedId = "g" ∧
    ([eG, eF].filter (fun i => i.feedId == "f")).map entryKey
      = [("http://l", "c", false, false)] ∧
    (((refreshFeed parseIdem [feedF] [eG, eF] "f" 9).2).filter
        (fun i => i.feedId == "f")).map entryKey
      = [("http://l", "c", true, false)] := by
  decide

/-- The stored entry of feed "f" after the user marked it read. -/
def eFr : RSSItem :=
  { id := "f-0-5", feedId := "f", title := "t", link := "http://l", description := "s",
    content := "c", pubDate := none, author := none, categories := none,
    isRead := true, isStarred := false }

/-- Witness for C5 (amended) at a concrete refresh with no cross-feed link
collision: the post-refresh key set equals the pre-refresh one. -/
theorem refresh_unchanged_upstream_idempotent_witness :
    (((refreshFeed parseIdem [feedF] [eFr] "f" 9).2).filter
        (fun i => i.feedId == "f")).map entryKey
      = ([eFr].filter (fun i => i.feedId == "f")).map entryKey ∧
    ((refreshFeed parseIdem [feedF] [eFr] "f" 9).2).filter (fun i => i.feedId != "f")
      = [eFr].filter (fun i => i.feedId != "f") :=
  refresh_unchanged_upstream_idempotent parseIdem [feedF] [eFr] "f" feedF pfIdem psIdem
    [(true, false)] 5 9 (by decide) (by decide) (by decide) (by decide) (by decide)
    (by decide) (by decide)
